import Mathlib

/-!
Verification of the habermolt deliberation platform.

This file gives a shallow embedding, in Lean, of the parts of the
repository that the specification talks about:

* `habermas_machine/social_choice/utils.py` and `schulze_method.py`
  (the Schulze social-choice aggregator with tie-breaking),
* `habermas_machine/machine.py` (the mediation engine, with the LLM-backed
  statement and ranking sub-models abstracted as function parameters),
* `backend/app/services/deliberation_service.py`,
  `backend/app/services/habermas_service.py` and
  `backend/app/api/deliberations.py` (the deliberation state machine).

Rankings are modelled as integer-valued vectors indexed by `Fin K`
(one rank per candidate), a ranking matrix as a list of such rows
(one row per citizen), and numpy arrays of shape `[K]` or `[K, K]`
as functions out of `Fin K`.  Python exceptions are modelled with
`Except String`.
-/

namespace Habermolt

/-- Decidable equality for `Except`, used to evaluate the embeddings on
concrete inputs. -/
instance {ε α : Type} [DecidableEq ε] [DecidableEq α] :
    DecidableEq (Except ε α) := fun x y =>
  match x, y with
  | Except.ok a, Except.ok b =>
      if h : a = b then Decidable.isTrue (by rw [h])
      else Decidable.isFalse (by simp [h])
  | Except.error e, Except.error f =>
      if h : e = f then Decidable.isTrue (by rw [h])
      else Decidable.isFalse (by simp [h])
  | Except.ok _, Except.error _ => Decidable.isFalse (by simp)
  | Except.error _, Except.ok _ => Decidable.isFalse (by simp)

/-! ## social_choice/utils.py -/

/-- A row of the ranking matrix: the rank a citizen gives each candidate
(lower is better, 0 is the top; the sentinel −1 marks abstention). -/
abbrev Row (K : Nat) := Fin K → Int

/-- Sentinel rank marking an abstaining (mock) entry, `utils.RANKING_MOCK`. -/
def RANKING_MOCK : Int := -1

/-- Tie-breaking mode, `utils.TieBreakingMethod`. -/
inductive TieBreakingMethod where
  | TIES_ALLOWED
  | RANDOM
  | TBRC
  deriving DecidableEq, Repr

/-- Whether some entry of a row is the mock sentinel. -/
def rowHasMock {K : Nat} (r : Row K) : Bool :=
  decide (∃ k, r k = RANKING_MOCK)

/-- Whether every entry of a row is the mock sentinel. -/
def rowAllMock {K : Nat} (r : Row K) : Bool :=
  decide (∀ k, r k = RANKING_MOCK)

/-- Embedding of `utils.filter_out_mocks`: fails when a row mixes mock and
non-mock entries, otherwise drops the all-mock rows. -/
def filter_out_mocks {K : Nat} (rows : List (Row K)) :
    Except String (List (Row K)) :=
  if rows.all (fun r => rowHasMock r == rowAllMock r) then
    Except.ok (rows.filter (fun r => !(rowHasMock r)))
  else
    Except.error "partial mock row"

/-- Embedding of `utils.normalize_ranking`: each value is replaced by the
number of distinct values strictly below it, e.g. [0, 2, 5, 5] becomes
[0, 1, 2, 2] (this is what `np.unique(·, return_inverse=True)` computes). -/
def normalize_ranking {K : Nat} (r : Row K) : Row K :=
  fun i => (((Finset.univ.image r)).filter (fun v => v < r i)).card

/-- Embedding of `utils.is_untied_ranking`: the number of distinct values
equals the number of candidates. -/
def is_untied_ranking {K : Nat} (r : Row K) : Bool :=
  (Finset.univ.image r).card == K

/-- Insert an integer into a sorted list, keeping it sorted. -/
def insertSorted (a : Int) : List Int → List Int
  | [] => [a]
  | b :: t => if a ≤ b then a :: b :: t else b :: insertSorted a t

/-- Insertion sort on integers, modelling `np.sort` of a row. -/
def sortInts : List Int → List Int
  | [] => []
  | a :: t => insertSorted a (sortInts t)

/-- Sorted list of the values of one row (`np.sort` along the row). -/
def rowValsSorted {K : Nat} (r : Row K) : List Int :=
  sortInts ((List.finRange K).map r)

/-- Consecutive differences of a sorted list are all 0 or 1. -/
def diffsZeroOne : List Int → Bool
  | [] => true
  | [_] => true
  | a :: b :: t => (b - a == 0 || b - a == 1) && diffsZeroOne (b :: t)

/-- Embedding of `utils.check_rankings` (with `allow_ties=True`): every row,
once sorted, must start at 0 and have step sizes 0 or 1.  Indexing column 0
of an empty-width matrix raises in numpy, hence the error when `K = 0` and
rows are present. -/
def check_rankings {K : Nat} (rows : List (Row K)) : Except String Unit :=
  if K = 0 then
    if rows.isEmpty then Except.ok () else Except.error "empty axis"
  else if rows.all (fun r =>
      (rowValsSorted r).head? == some 0 && diffsZeroOne (rowValsSorted r)) then
    Except.ok ()
  else
    Except.error "incorrect ratings"

/-- Embedding of `utils.untie_ranking_with_ballot`: scale the normalized
ranking by the number of candidates, add the normalized ballot, and
renormalize. -/
def untie_ranking_with_ballot {K : Nat} (ranking ballot : Row K) : Row K :=
  normalize_ranking
    (fun i => normalize_ranking ranking i * K + normalize_ranking ballot i)

/-! ## schulze_method.py, tie-free part -/

/-- A square integer matrix over the candidates. -/
abbrev Mat (K : Nat) := Fin K → Fin K → Nat

/-- Embedding of `Schulze._compute_pairwise_defeats`:
`D x y` counts the citizens ranking candidate `x` strictly above `y`. -/
def pairwise_defeats {K : Nat} (rows : List (Row K)) : Mat K :=
  fun x y => rows.countP (fun r => r x < r y)

/-- Initialization step of `Schulze._compute_strongest_path_strengths`:
an off-diagonal entry starts at `D x y` when `x` pairwise-beats `y`,
otherwise at 0. -/
def initPathStrengths {K : Nat} (D : Mat K) : Mat K :=
  fun x y => if x ≠ y ∧ D y x < D x y then D x y else 0

/-- One in-place update of the Floyd–Warshall widest-path loop, guarded
exactly as in the source (`idx ≠ idy`, `idx ≠ idz`, `idy ≠ idz`). -/
def fwUpdate {K : Nat} (P : Mat K) (i y z : Fin K) : Mat K :=
  if i ≠ y ∧ i ≠ z ∧ y ≠ z then
    fun a b =>
      if a = y ∧ b = z then max (P y z) (min (P y i) (P i z)) else P a b
  else P

/-- The triples `(idx, idy, idz)` of the nested loops of
`_compute_strongest_path_strengths`, in iteration order. -/
def fwTriples (K : Nat) : List (Fin K × Fin K × Fin K) :=
  (List.finRange K).flatMap fun i =>
    (List.finRange K).flatMap fun y =>
      (List.finRange K).map fun z => (i, y, z)

/-- Embedding of the Floyd–Warshall loop of
`Schulze._compute_strongest_path_strengths`. -/
def floydWarshall {K : Nat} (P : Mat K) : Mat K :=
  (fwTriples K).foldl (fun Q t => fwUpdate Q t.1 t.2.1 t.2.2) P

/-- Embedding of `Schulze._compute_strongest_path_strengths`. -/
def strongest_path_strengths {K : Nat} (D : Mat K) : Mat K :=
  floydWarshall (initPathStrengths D)

/-- Count of candidates that `x` weakly dominates
(`pairwise_dominance.sum(axis=1)` in `Schulze._rank_candidates`;
the int32 margin `P x y − P y x ≥ 0` is exactly `P y x ≤ P x y`). -/
def weaklyPreferredCount {K : Nat} (P : Mat K) (x : Fin K) : Nat :=
  (Finset.univ.filter (fun y => P y x ≤ P x y)).card

/-- Inverse-index step of `Schulze._rank_candidates`
(`np.unique(-counts, return_inverse=True)`): the rank of `x` is the number
of distinct count values strictly above its own. -/
def rankFromCounts {K : Nat} (counts : Fin K → Nat) (x : Fin K) : Int :=
  ((Finset.univ.image counts).filter (fun v => counts x < v)).card

/-- Embedding of `Schulze._rank_candidates`. -/
def rank_candidates {K : Nat} (P : Mat K) : Row K :=
  rankFromCounts (weaklyPreferredCount P)

/-- The pure pipeline behind `Schulze.aggregate_with_ties`, after the
validity check. -/
def schulze_tied {K : Nat} (rows : List (Row K)) : Row K :=
  rank_candidates (strongest_path_strengths (pairwise_defeats rows))

/-- Embedding of `Schulze.aggregate_with_ties`: validate, then rank by
strongest path strengths. -/
def aggregate_with_ties {K : Nat} (rows : List (Row K)) :
    Except String (Row K) :=
  match check_rankings rows with
  | Except.error e => Except.error e
  | Except.ok _ => Except.ok (schulze_tied rows)

/-! ## The seeded random number generator

Modelled from the spec: the generator behind `np.random.default_rng(seed)`
is an external library, not part of this repository; the spec only relies
on its contract that the stream is a deterministic function of the seed
(section 4.1, determinism requirement).  We model the state as a natural
number advanced by a 64-bit linear congruential step, and `rng.shuffle`
as a Fisher–Yates-style shuffle driven by that stream. -/

/-- Modelled from the spec: one step of the external seeded PRNG (a
linear congruential step stands in for numpy's PCG64; the state is kept
as an unbounded natural instead of wrapping at 2^64, which preserves the
only property the spec relies on — the stream is a deterministic function
of the seed). -/
def lcg (s : Nat) : Nat :=
  6364136223846793005 * s + 1442695040888963407

/-- One pass of the modelled shuffle: repeatedly draw an index into the
remaining list and move that element to the front of the output. -/
def shuffleGo {α : Type} (fuel : Nat) (s : Nat) (l : List α) :
    List α × Nat :=
  match fuel, l with
  | 0, l => (l, s)
  | _ + 1, [] => ([], s)
  | fuel + 1, x :: xs =>
      let s' := lcg s
      let i := s' % (x :: xs).length
      let rest := (x :: xs).eraseIdx i
      let out := shuffleGo fuel s' rest
      ((x :: xs).getD i x :: out.1, out.2)

/-- Modelled from the spec: `rng.shuffle` on a list, returning the shuffled
list and the advanced generator state. -/
def npShuffle {α : Type} (s : Nat) (l : List α) : List α × Nat :=
  shuffleGo l.length s l

/-- Modelled from the spec: `rng.permutation(np.arange(K))` as an
integer-valued ranking row, plus the advanced generator state. -/
def npPermutationRow (s : Nat) (K : Nat) : Row K × Nat :=
  let out := npShuffle s (List.range K)
  (fun i => ((out.1.getD i 0 : Nat) : Int), out.2)

/-! ## schulze_method.py, `Schulze.aggregate` -/

/-- The tie-breaking loop of the TBRC branch of `Schulze.aggregate`:
refine the social ranking by each shuffled ballot in turn, returning
`Sum.inl` on the early exit (no ties left) and `Sum.inr` with the fully
refined ranking when the ballots are exhausted. -/
def tbrcLoop {K : Nat} (s : Row K) : List (Row K) → Row K ⊕ Row K
  | [] => Sum.inr s
  | b :: rest =>
      let s' := untie_ranking_with_ballot s b
      if is_untied_ranking s' then Sum.inl s' else tbrcLoop s' rest

/-- Embedding of `Schulze.aggregate`: filter mock rows; on an empty matrix
return all-mock ties and a random permutation; otherwise aggregate, and
break remaining ties according to the configured method (the final
`raise ValueError` of the source is unreachable for the three enum values
but kept as the fall-through error). -/
def aggregate {K : Nat} (method : TieBreakingMethod) (rows : List (Row K))
    (seed : Nat) : Except String (Row K × Row K) :=
  let s0 := seed
  match filter_out_mocks rows with
  | Except.error e => Except.error e
  | Except.ok frows =>
    if frows.isEmpty || decide (K = 0) then
      let out := npPermutationRow s0 K
      Except.ok (fun _ => RANKING_MOCK, out.1)
    else
      match aggregate_with_ties frows with
      | Except.error e => Except.error e
      | Except.ok social =>
        if is_untied_ranking social
            || method == TieBreakingMethod.TIES_ALLOWED then
          Except.ok (social, social)
        else
          match method with
          | TieBreakingMethod.TBRC =>
              let sh := npShuffle s0 frows
              match tbrcLoop social sh.1 with
              | Sum.inl untied => Except.ok (social, untied)
              | Sum.inr refined =>
                  let out := npPermutationRow sh.2 K
                  Except.ok (social, untie_ranking_with_ballot refined out.1)
          | TieBreakingMethod.RANDOM =>
              let out := npPermutationRow s0 K
              Except.ok (social, untie_ranking_with_ballot social out.1)
          | TieBreakingMethod.TIES_ALLOWED =>
              Except.error "tie_breaking_method is not supported"

/-- A ranking (or any integer row) is a strict permutation of 0..K−1:
injective with all values in range. -/
def IsStrictPerm {K : Nat} (r : Row K) : Prop :=
  Function.Injective r ∧ ∀ i, 0 ≤ r i ∧ r i < (K : Int)

/-- The values of a row are exactly the consecutive integers 0..m−1 for
some m. -/
def ConsecutiveFromZero {K : Nat} (r : Row K) : Prop :=
  ∃ m, Finset.univ.image r = (Finset.range m).image (fun n : Nat => (n : Int))

/-! ## machine.py: the Habermas Machine

The two LLM-backed sub-modules (`statement_model.generate_statement` and
`reward_model.predict_ranking`) perform prompting, parsing and retries
internally; the machine only observes their final outcome.  They are
therefore abstracted as function parameters of the configuration: the
`Option` result of the ranking predictor models the nil-after-retries
outcome.  The configuration mirrors `HabermasMachine.__init__` and
`HabermasService._create_machine` (Schulze with TBRC tie-breaking). -/

/-- Configuration of a `HabermasMachine` instance. -/
structure MachineConfig where
  question : String
  gen_statement : (question : String) → (opinions : List String) →
    (previous_winner : Option String) → (critiques : Option (List String)) →
    (seed : Nat) → String × String
  predict_ranking : (question : String) → (opinion : String) →
    (statements : List String) → (previous_winner : Option String) →
    (critique : Option String) → (seed : Nat) → Option (List Int) × String
  num_candidates : Nat
  num_citizens : Nat

/-- Mutable state of a `HabermasMachine` (round counter, retained opinions,
critiques and winners, and the RNG state). -/
structure MachineState where
  round : Nat
  opinions : List String
  critiques : List (List String)
  previous_winners : List String
  rng : Nat

/-- A fresh machine, `HabermasMachine.__init__` with the given seed. -/
def newMachine (seed : Nat) : MachineState :=
  { round := 0, opinions := [], critiques := [], previous_winners := [],
    rng := seed }

/-- Embedding of `HabermasMachine._get_new_seed`: draw a fresh 32-bit seed
from the machine RNG. -/
def drawSeed (m : MachineState) : Nat × MachineState :=
  (lcg m.rng % 2147483648, { m with rng := lcg m.rng })

/-- Loop body of `HabermasMachine._generate_statements`: for each of the
`n` remaining candidates, shuffle the opinions (and the latest critiques,
with the same permutation), call the statement model, and collect
statements and explanations. -/
def genLoop (cfg : MachineConfig) : Nat → MachineState →
    List String × List String × MachineState
  | 0, m => ([], [], m)
  | n + 1, m =>
      let sh := npShuffle m.rng (List.range cfg.num_citizens)
      let shuffled_opinions := sh.1.map (fun j => m.opinions.getD j "")
      let shuffled_critiques :=
        match m.critiques.getLast? with
        | none => none
        | some cs => some (sh.1.map (fun j => cs.getD j ""))
      let sd := drawSeed { m with rng := sh.2 }
      let g := cfg.gen_statement cfg.question shuffled_opinions
        m.previous_winners.getLast? shuffled_critiques sd.1
      let rest := genLoop cfg n sd.2
      (g.1 :: rest.1, g.2 :: rest.2.1, rest.2.2)

/-- Embedding of `HabermasMachine._generate_statements`. -/
def generate_statements (cfg : MachineConfig) (m : MachineState) :
    List String × List String × MachineState :=
  genLoop cfg cfg.num_candidates m

/-- Loop of `HabermasMachine._get_rankings` over the citizen indices:
shuffle the statements, call the ranking predictor, raise when the
predicted ranking is nil, otherwise scatter the ranking back to the
canonical candidate order. -/
def rankLoop (cfg : MachineConfig) (statements : List String) :
    List Nat → MachineState →
    Except String (List (Row cfg.num_candidates) × List String × MachineState)
  | [], m => Except.ok ([], [], m)
  | i :: rest, m =>
      let sh := npShuffle m.rng (List.range cfg.num_candidates)
      let shuffled_statements := sh.1.map (fun j => statements.getD j "")
      let sd := drawSeed { m with rng := sh.2 }
      let pr := cfg.predict_ranking cfg.question (m.opinions.getD i "")
        shuffled_statements
        (if m.round > 0 then m.previous_winners.getLast? else none)
        (if m.round > 0 then m.critiques.getLast?.map (fun cs => cs.getD i "")
         else none)
        sd.1
      match pr.1 with
      | none => Except.error "ranking is none"
      | some ranking =>
          let unshuffled : Row cfg.num_candidates :=
            fun k => ranking.getD (sh.1.indexOf k.val) RANKING_MOCK
          match rankLoop cfg statements rest sd.2 with
          | Except.error e => Except.error e
          | Except.ok (rows, exps, m') =>
              Except.ok (unshuffled :: rows, pr.2 :: exps, m')

/-- Embedding of `HabermasMachine._get_rankings`. -/
def get_rankings (cfg : MachineConfig) (statements : List String)
    (m : MachineState) :
    Except String (List (Row cfg.num_candidates) × List String ×
      MachineState) :=
  rankLoop cfg statements (List.range cfg.num_citizens) m

/-- Insert a candidate index into a list of indices sorted by the given
key. -/
def insertIdxSorted {K : Nat} (key : Row K) (a : Fin K) :
    List (Fin K) → List (Fin K)
  | [] => [a]
  | b :: t => if key a ≤ key b then a :: b :: t else b :: insertIdxSorted key a t

/-- Insertion argsort of the candidate indices by the given key,
modelling `np.argsort`. -/
def argsort {K : Nat} (key : Row K) : List (Fin K) → List (Fin K)
  | [] => []
  | a :: t => insertIdxSorted key a (argsort key t)

/-- The tail of `HabermasMachine.mediate` after `_get_rankings`: run the
social-choice aggregation on the stacked rankings (the backend configures
Schulze with TBRC tie-breaking via `HabermasService._create_machine`),
sort the statements by the untied social ranking, record the winner and
advance the round. -/
def mediate_after_rankings (cfg : MachineConfig) (statements : List String)
    (res : Except String
      (List (Row cfg.num_candidates) × List String × MachineState)) :
    Except String (String × List String × MachineState) :=
  match res with
  | Except.error e => Except.error e
  | Except.ok (all_rankings, _explanations, m2) =>
      let sd := drawSeed m2
      match aggregate TieBreakingMethod.TBRC all_rankings sd.1 with
      | Except.error e => Except.error e
      | Except.ok (_tied, untied) =>
          let sorted_indices :=
            argsort untied (List.finRange cfg.num_candidates)
          let sorted_statements :=
            sorted_indices.map (fun i => statements.getD i.val "")
          let winner := sorted_statements.headD ""
          let m3 := { sd.2 with
            previous_winners := sd.2.previous_winners ++ [winner],
            round := sd.2.round + 1 }
          Except.ok (winner, sorted_statements, m3)

/-- Embedding of `HabermasMachine.mediate`: one mediation step.  Returns
the winner, the statements sorted by the untied social ranking, and the
advanced machine state. -/
def mediate (cfg : MachineConfig) (m : MachineState)
    (opinions_or_critiques : List String) :
    Except String (String × List String × MachineState) :=
  if opinions_or_critiques.length ≠ cfg.num_citizens then
    Except.error "wrong number of opinions or critiques"
  else
    let m := if m.round == 0 then { m with opinions := opinions_or_critiques }
             else { m with critiques := m.critiques ++ [opinions_or_critiques] }
    let gen := generate_statements cfg m
    let statements := gen.1
    mediate_after_rankings cfg statements
      (get_rankings cfg statements gen.2.2)

/-! ## backend/app/services/habermas_service.py -/

/-- Embedding of `HabermasService.run_opinion_round` modulo persistence
(the caller persists the returned sorted statements): create a fresh
machine sized to the opinions and mediate once. -/
def run_opinion_round (base : MachineConfig) (seed : Nat)
    (opinions : List String) : Except String (List String) :=
  let cfg := { base with num_citizens := opinions.length }
  match mediate cfg (newMachine seed) opinions with
  | Except.error e => Except.error e
  | Except.ok (_w, sorted, _m) => Except.ok sorted

/-- Embedding of `HabermasService.run_critique_round` modulo persistence:
create a fresh machine sized to the opinions, first mediate on the
opinions (a full re-run of the opinion round), then mediate on the
critique texts, and return the second round's sorted statements. -/
def run_critique_round (base : MachineConfig) (seed : Nat)
    (opinions critiques : List String) : Except String (List String) :=
  let cfg := { base with num_citizens := opinions.length }
  match mediate cfg (newMachine seed) opinions with
  | Except.error e => Except.error e
  | Except.ok (_w1, _sorted1, m1) =>
      match mediate cfg m1 critiques with
      | Except.error e => Except.error e
      | Except.ok (_w2, sorted2, _m2) => Except.ok sorted2

/-! ## The deliberation state machine

Embedding of `backend/app/models/deliberation.py`,
`backend/app/services/deliberation_service.py` and
`backend/app/api/deliberations.py`.  Submissions are keyed by plain
natural-number agent ids; timestamps are natural numbers supplied by the
caller; the persistent store is a map from deliberation ids to states.
The Mediation Engine round runners are passed in as parameters (in the
source they are the methods of the global `habermas_service`). -/

/-- Deliberation stages, `DeliberationStage`. -/
inductive Stage where
  | OPINION
  | RANKING
  | CRITIQUE
  | CONCLUDED
  | FINALIZED
  deriving DecidableEq, Repr

/-- A persisted statement row (`models/statement.py`): round number, text
and 1-indexed social rank. -/
structure StatementRec where
  round_number : Nat
  statement_text : String
  social_ranking : Nat
  deriving DecidableEq, Repr

/-- A persisted deliberation (`models/deliberation.py`) together with its
owned submissions.  Opinions are (agent, text); rankings are
(agent, round, statement_rankings payload); critiques are
(agent, round, text); feedback is (agent, agreement). -/
structure DelibState where
  stage : Stage
  num_citizens : Nat
  max_citizens : Option Nat
  num_critique_rounds : Nat
  current_critique_round : Nat
  opinions : List (Nat × String)
  rankings : List (Nat × Nat × List (Nat × Int))
  critiques : List (Nat × Nat × String)
  statements : List StatementRec
  started_at : Option Nat
  concluded_at : Option Nat
  deriving DecidableEq

/-- Rejection outcomes of the submission endpoints: 404, 400 stage, 409
duplicate. -/
inductive SubmitError where
  | notFound
  | stageMismatch
  | duplicateSubmission
  deriving DecidableEq, Repr

/-- Embedding of `models/deliberation.py.get_winning_statement` via
`DeliberationService.get_winning_statement`: the statement of the current
round with social rank 1. -/
def get_winning_statement (d : DelibState) : Option StatementRec :=
  (d.statements.filter (fun s =>
    s.round_number == d.current_critique_round && s.social_ranking == 1)).head?

/-- Statement texts persisted for a given round, in storage order. -/
def round_statement_texts (d : DelibState) (r : Nat) : List String :=
  (d.statements.filter (fun s => s.round_number == r)).map
    (fun s => s.statement_text)

/-- Persistence step shared by `run_opinion_round` and
`run_critique_round` in `habermas_service.py`: statement `idx` of the
sorted list is stored with `social_ranking = idx + 1`. -/
def persist_statements (round : Nat) (sorted : List String) :
    List StatementRec :=
  ((List.range sorted.length).zip sorted).map
    (fun p => { round_number := round, statement_text := p.2,
                social_ranking := p.1 + 1 })

/-- Embedding of the `submit_opinion` endpoint
(`api/deliberations.py`): 404 on unknown id, 400 unless in OPINION, 409 on
a duplicate opinion by the same agent, otherwise store the opinion.  (The
background transition check is modelled separately, as in the source.) -/
def submit_opinion (store : Nat → Option DelibState) (did agent : Nat)
    (text : String) : Except SubmitError DelibState :=
  match store did with
  | none => Except.error SubmitError.notFound
  | some d =>
      if d.stage ≠ Stage.OPINION then Except.error SubmitError.stageMismatch
      else if d.opinions.any (fun o => o.1 == agent) then
        Except.error SubmitError.duplicateSubmission
      else Except.ok { d with opinions := d.opinions ++ [(agent, text)] }

/-- Embedding of the `submit_ranking` endpoint (`api/deliberations.py`):
404 on unknown id, 400 unless in RANKING, 409 when the agent already has a
ranking for the current round, otherwise store the submitted
`statement_rankings` payload as-is. -/
def submit_ranking (store : Nat → Option DelibState) (did agent : Nat)
    (statement_rankings : List (Nat × Int)) : Except SubmitError DelibState :=
  match store did with
  | none => Except.error SubmitError.notFound
  | some d =>
      if d.stage ≠ Stage.RANKING then Except.error SubmitError.stageMismatch
      else if d.rankings.any (fun r =>
          r.1 == agent && r.2.1 == d.current_critique_round) then
        Except.error SubmitError.duplicateSubmission
      else Except.ok { d with rankings :=
        d.rankings ++ [(agent, d.current_critique_round, statement_rankings)] }

/-- Embedding of
`DeliberationService._check_opinion_to_ranking_transition`: requires at
least 2 opinions, and the cap to be reached when `max_citizens` is set;
then runs the opinion round, persists its statements for round 0, freezes
`num_citizens`, sets `started_at` and moves to RANKING.  `runOpinion` is
`habermas_service.run_opinion_round`. -/
def check_opinion_to_ranking_transition
    (runOpinion : List String → Except String (List String)) (now : Nat)
    (d : DelibState) : Except String (DelibState × Bool) :=
  if d.opinions.length < 2 then Except.ok (d, false)
  else if (match d.max_citizens with
           | some mx => decide (d.opinions.length < mx)
           | none => false) then Except.ok (d, false)
  else
    match runOpinion (d.opinions.map (fun o => o.2)) with
    | Except.error e => Except.error e
    | Except.ok sorted =>
        Except.ok ({ d with
          stage := Stage.RANKING,
          num_citizens := d.opinions.length,
          started_at := some now,
          statements := d.statements ++ persist_statements 0 sorted }, true)

/-- Embedding of
`DeliberationService._check_ranking_to_critique_transition`: once the
current round has as many rankings as citizens, move to CRITIQUE. -/
def check_ranking_to_critique_transition (d : DelibState) :
    DelibState × Bool :=
  let current := (d.rankings.filter (fun r =>
    r.2.1 == d.current_critique_round)).length
  if current < d.num_citizens then (d, false)
  else ({ d with stage := Stage.CRITIQUE }, true)

/-- Embedding of `DeliberationService._check_critique_transition`: once
the current round has as many critiques as citizens, either run another
mediation round (when `current_critique_round < num_critique_rounds − 1`),
incrementing the round, persisting the new statements and returning to
RANKING, or conclude.  `runCritique` is
`habermas_service.run_critique_round`, taking the opinion texts, the
critique texts of the just-finished round and the new round number. -/
def check_critique_transition
    (runCritique : List String → List String → Nat →
      Except String (List String)) (now : Nat) (d : DelibState) :
    Except String (DelibState × Bool) :=
  let current_critiques := (d.critiques.filter (fun c =>
    c.2.1 == d.current_critique_round)).length
  if current_critiques < d.num_citizens then Except.ok (d, false)
  else if d.current_critique_round < d.num_critique_rounds - 1 then
    let critiques_text := (d.critiques.filter (fun c =>
      c.2.1 == d.current_critique_round)).map (fun c => c.2.2)
    let opinions_text := d.opinions.map (fun o => o.2)
    let newRound := d.current_critique_round + 1
    match runCritique opinions_text critiques_text newRound with
    | Except.error e => Except.error e
    | Except.ok sorted =>
        Except.ok ({ d with
          current_critique_round := newRound,
          statements := d.statements ++ persist_statements newRound sorted,
          stage := Stage.RANKING }, true)
  else
    Except.ok ({ d with stage := Stage.CONCLUDED,
                        concluded_at := some now }, true)

/-- Outcome of the background `check_transition` task for a transition
that may raise: on an error the session is discarded and the deliberation
row is left exactly as it was. -/
def apply_transition
    (check : DelibState → Except String (DelibState × Bool))
    (d : DelibState) : DelibState :=
  match check d with
  | Except.ok (d', _) => d'
  | Except.error _ => d

/-! ## Concrete example states and spec-side predicates used by the
theorems below -/

/-- The spec-side well-formedness predicate on a submitted
`statement_rankings` payload (claim C2): the referenced statement ids are
exactly the given candidate ids and the ranks are a strict permutation of
1..K.  This definition follows the spec wording, not the source (the
source has no such check). -/
def SpecStrictPermutationPayload (payload : List (Nat × Int))
    (sids : List Nat) : Prop :=
  (payload.map Prod.fst).Perm sids ∧
    (payload.map Prod.snd).Perm
      ((List.range sids.length).map (fun n => ((n : Int) + 1)))

/-- A deliberation in CRITIQUE with `num_critique_rounds = 1`, round 0,
two citizens and both round-0 critiques submitted. -/
def c1_delib : DelibState :=
  { stage := Stage.CRITIQUE, num_citizens := 2, max_citizens := none,
    num_critique_rounds := 1, current_critique_round := 0,
    opinions := [(1, "o1"), (2, "o2")],
    rankings := [], critiques := [(1, 0, "c1"), (2, 0, "c2")],
    statements := [⟨0, "W0", 1⟩, ⟨0, "L0", 2⟩],
    started_at := some 5, concluded_at := none }

/-- The same deliberation with `num_critique_rounds = 3`, so that the
next-round branch of the critique transition fires. -/
def c1_delib3 : DelibState :=
  { c1_delib with num_critique_rounds := 3 }

/-- A deliberation in RANKING with two round-0 candidate statements
(ids 1 and 2) and no rankings yet. -/
def c2_delib : DelibState :=
  { stage := Stage.RANKING, num_citizens := 2, max_citizens := none,
    num_critique_rounds := 1, current_critique_round := 0,
    opinions := [(1, "o1"), (2, "o2")],
    rankings := [], critiques := [],
    statements := [⟨0, "s1", 1⟩, ⟨0, "s2", 2⟩],
    started_at := some 5, concluded_at := none }

/-- A deliberation still in OPINION whose `max_citizens = 2` cap is
already reached by its two stored opinions. -/
def c10_delib : DelibState :=
  { c2_delib with stage := Stage.OPINION, max_citizens := some 2 }

/-- A machine configuration whose statement generator records the
`previous_winner` argument it receives in the generated text ("base" when
none, "seen:w" when `w`), and whose ranking predictor always returns the
strict ranking [0, 1].  Used to observe which winner the critique round
passes to the Statement Generator. -/
def c3_cfg : MachineConfig :=
  { question := "q"
    gen_statement := fun _q _ops prevW _crits _seed =>
      (match prevW with
       | none => "base"
       | some w => "seen:" ++ w, "e")
    predict_ranking := fun _q _op _stmts _prevW _crit _seed =>
      (some [0, 1], "e")
    num_candidates := 2
    num_citizens := 2 }

/-- A deliberation in CRITIQUE at round 0 of 2 whose persisted round-0
winner (social rank 1) is the statement "W0". -/
def c3_delib : DelibState :=
  { stage := Stage.CRITIQUE, num_citizens := 2, max_citizens := none,
    num_critique_rounds := 2, current_critique_round := 0,
    opinions := [(1, "o1"), (2, "o2")],
    rankings := [], critiques := [(1, 0, "c1"), (2, 0, "c2")],
    statements := [⟨0, "W0", 1⟩, ⟨0, "L0", 2⟩],
    started_at := some 5, concluded_at := none }

/-- The critique-round runner of the background transition, as wired in
`deliberation_service.py`: `habermas_service.run_critique_round` with the
configuration above. -/
def c3_run (ops crits : List String) (_round : Nat) :
    Except String (List String) :=
  run_critique_round c3_cfg 11 ops crits

/-! ## Lemmas about `normalize_ranking` and `untie_ranking_with_ballot` -/

theorem self_mem_image {K : Nat} (r : Row K) (i : Fin K) :
    r i ∈ Finset.univ.image r :=
  Finset.mem_image_of_mem r (Finset.mem_univ i)

theorem normalize_nonneg {K : Nat} (r : Row K) (i : Fin K) :
    0 ≤ normalize_ranking r i :=
  Int.natCast_nonneg _

theorem normalize_lt_card {K : Nat} (r : Row K) (i : Fin K) :
    normalize_ranking r i < ((Finset.univ.image r).card : Int) := by
  have hsub : (Finset.univ.image r).filter (fun v => v < r i) ⊂
      Finset.univ.image r := by
    rw [Finset.ssubset_iff_of_subset (Finset.filter_subset _ _)]
    exact ⟨r i, self_mem_image r i, by simp⟩
  unfold normalize_ranking
  exact_mod_cast Finset.card_lt_card hsub

theorem image_card_le {K : Nat} (r : Row K) :
    (Finset.univ.image r).card ≤ K := by
  calc (Finset.univ.image r).card ≤ (Finset.univ : Finset (Fin K)).card :=
        Finset.card_image_le
    _ = K := by simp

theorem normalize_lt {K : Nat} (r : Row K) (i : Fin K) :
    normalize_ranking r i < (K : Int) :=
  lt_of_lt_of_le (normalize_lt_card r i) (by exact_mod_cast image_card_le r)

theorem normalize_strictMono {K : Nat} (r : Row K) {i j : Fin K}
    (h : r i < r j) : normalize_ranking r i < normalize_ranking r j := by
  have hsub : (Finset.univ.image r).filter (fun v => v < r i) ⊂
      (Finset.univ.image r).filter (fun v => v < r j) := by
    rw [Finset.ssubset_iff_of_subset]
    · exact ⟨r i, Finset.mem_filter.mpr ⟨self_mem_image r i, h⟩, by simp⟩
    · intro v hv
      rw [Finset.mem_filter] at hv ⊢
      exact ⟨hv.1, lt_trans hv.2 h⟩
  unfold normalize_ranking
  exact_mod_cast Finset.card_lt_card hsub

theorem normalize_injective {K : Nat} (r : Row K)
    (h : Function.Injective r) :
    Function.Injective (normalize_ranking r) := by
  intro i j hij
  rcases lt_trichotomy (r i) (r j) with hlt | heq | hgt
  · exact absurd hij (ne_of_lt (normalize_strictMono r hlt))
  · exact h heq
  · exact absurd hij.symm (ne_of_lt (normalize_strictMono r hgt))

theorem is_untied_iff {K : Nat} (r : Row K) :
    is_untied_ranking r = true ↔ Function.Injective r := by
  unfold is_untied_ranking
  rw [beq_iff_eq]
  constructor
  · intro h
    have h2 : Set.InjOn r (Finset.univ : Finset (Fin K)) :=
      Finset.card_image_iff.mp (by simp [h])
    intro a b hab
    exact h2 (by simp) (by simp) hab
  · intro h
    rw [Finset.card_image_of_injective _ h]
    simp

theorem scaled_lt {a1 a2 b1 b2 k : Int} (hK : 0 ≤ k) (ha : a1 < a2)
    (hb1 : b1 < k) (hb2 : 0 ≤ b2) : a1 * k + b1 < a2 * k + b2 := by
  calc a1 * k + b1 < a1 * k + k := by omega
    _ = (a1 + 1) * k := by ring
    _ ≤ a2 * k := mul_le_mul_of_nonneg_right (by omega) hK
    _ ≤ a2 * k + b2 := by omega

theorem untie_strictMono {K : Nat} (t b : Row K) {x y : Fin K}
    (h : t x < t y) :
    untie_ranking_with_ballot t b x < untie_ranking_with_ballot t b y := by
  unfold untie_ranking_with_ballot
  exact normalize_strictMono _
    (scaled_lt (Int.natCast_nonneg K) (normalize_strictMono t h)
      (normalize_lt b x) (normalize_nonneg b y))

theorem untie_injective_of_ballot {K : Nat} (t b : Row K)
    (hb : Function.Injective b) :
    Function.Injective (untie_ranking_with_ballot t b) := by
  unfold untie_ranking_with_ballot
  apply normalize_injective
  intro i j hij
  simp only at hij
  have hsame : normalize_ranking t i = normalize_ranking t j := by
    rcases lt_trichotomy (normalize_ranking t i) (normalize_ranking t j) with
      hlt | heq | hgt
    · exact absurd hij (ne_of_lt (scaled_lt (Int.natCast_nonneg K) hlt
        (normalize_lt b i) (normalize_nonneg b j)))
    · exact heq
    · exact absurd hij.symm (ne_of_lt (scaled_lt (Int.natCast_nonneg K) hgt
        (normalize_lt b j) (normalize_nonneg b i)))
  rw [hsame] at hij
  exact normalize_injective b hb (add_left_cancel hij)

theorem untie_is_untied {K : Nat} (t b : Row K)
    (hb : Function.Injective b) :
    is_untied_ranking (untie_ranking_with_ballot t b) = true :=
  (is_untied_iff _).mpr (untie_injective_of_ballot t b hb)

theorem untie_value_bounds {K : Nat} (t b : Row K) (i : Fin K) :
    0 ≤ untie_ranking_with_ballot t b i ∧
      untie_ranking_with_ballot t b i < (K : Int) := by
  unfold untie_ranking_with_ballot
  exact ⟨normalize_nonneg _ i, normalize_lt _ i⟩

theorem strictPerm_of_untie_untied {K : Nat} (t b : Row K)
    (h : is_untied_ranking (untie_ranking_with_ballot t b) = true) :
    IsStrictPerm (untie_ranking_with_ballot t b) :=
  ⟨(is_untied_iff _).mp h, untie_value_bounds t b⟩

theorem normalize_image {K : Nat} (r : Row K) :
    Finset.univ.image (normalize_ranking r) =
      (Finset.range ((Finset.univ.image r).card)).image
        (fun n : Nat => (n : Int)) := by
  set S := Finset.univ.image r with hS
  set m := S.card with hm
  set g : Int → Int := fun v => ((S.filter (fun w => w < v)).card : Int)
    with hg
  have himg : Finset.univ.image (normalize_ranking r) = S.image g := by
    rw [hS, Finset.image_image]
    rfl
  have hglt : ∀ v ∈ S, g v < (m : Int) := by
    intro v hv
    have hsub : S.filter (fun w => w < v) ⊂ S := by
      rw [Finset.ssubset_iff_of_subset (Finset.filter_subset _ _)]
      exact ⟨v, hv, by simp⟩
    have hlt := Finset.card_lt_card hsub
    simp only [hg]
    exact_mod_cast hlt
  have hmono : ∀ v ∈ S, ∀ v2 ∈ S, v < v2 → g v < g v2 := by
    intro v hv v2 _ hlt
    have hsub : S.filter (fun w => w < v) ⊂ S.filter (fun w => w < v2) := by
      rw [Finset.ssubset_iff_of_subset]
      · exact ⟨v, Finset.mem_filter.mpr ⟨hv, hlt⟩, by simp⟩
      · intro w hw
        rw [Finset.mem_filter] at hw ⊢
        exact ⟨hw.1, lt_trans hw.2 hlt⟩
    have hcards := Finset.card_lt_card hsub
    simp only [hg]
    exact_mod_cast hcards
  have hinj : Set.InjOn g S := by
    intro v hv v2 hv2 hvv
    rcases lt_trichotomy v v2 with hlt | heq | hgt
    · exact absurd hvv (ne_of_lt (hmono v hv v2 hv2 hlt))
    · exact heq
    · exact absurd hvv.symm (ne_of_lt (hmono v2 hv2 v hv hgt))
  have hsubset : S.image g ⊆
      (Finset.range m).image (fun n : Nat => (n : Int)) := by
    intro x hx
    rcases Finset.mem_image.mp hx with ⟨v, hv, hxv⟩
    rw [Finset.mem_image]
    refine ⟨(S.filter (fun w => w < v)).card, ?_, hxv⟩
    rw [Finset.mem_range]
    have := hglt v hv
    simp only [hg] at this
    exact_mod_cast this
  have hcard1 : (S.image g).card = m := Finset.card_image_of_injOn hinj
  have hcard2 : ((Finset.range m).image (fun n : Nat => (n : Int))).card =
      m := by
    rw [Finset.card_image_of_injective _ (fun a b h => by exact_mod_cast h)]
    exact Finset.card_range m
  rw [himg]
  exact Finset.eq_of_subset_of_card_le hsubset (by rw [hcard1, hcard2])

theorem untie_consecutive {K : Nat} (t b : Row K) :
    ConsecutiveFromZero (untie_ranking_with_ballot t b) :=
  ⟨_, normalize_image _⟩

/-! ## Lemmas about the Floyd–Warshall widest-path loop -/

theorem fwUpdate_le {K : Nat} (P : Mat K) (i y z a b : Fin K) :
    P a b ≤ fwUpdate P i y z a b := by
  unfold fwUpdate
  by_cases hg : i ≠ y ∧ i ≠ z ∧ y ≠ z
  · rw [if_pos hg]
    by_cases hab : a = y ∧ b = z
    · simp only [if_pos hab]
      rw [hab.1, hab.2]
      exact le_max_left _ _
    · simp [if_neg hab]
  · simp [if_neg hg]

theorem foldl_fw_le {K : Nat} (L : List (Fin K × Fin K × Fin K)) :
    ∀ (P : Mat K) (a b : Fin K),
      P a b ≤ (L.foldl (fun Q t => fwUpdate Q t.1 t.2.1 t.2.2) P) a b := by
  induction L with
  | nil => intro P a b; exact le_refl _
  | cons t rest ih =>
      intro P a b
      exact le_trans (fwUpdate_le P t.1 t.2.1 t.2.2 a b) (ih _ a b)

theorem floydWarshall_ge_init {K : Nat} (P : Mat K) (a b : Fin K) :
    P a b ≤ floydWarshall P a b :=
  foldl_fw_le (fwTriples K) P a b

theorem fwUpdate_col_zero {K : Nat} (P : Mat K) (i y z x : Fin K)
    (h : ∀ a, P a x = 0) : ∀ a, fwUpdate P i y z a x = 0 := by
  intro a
  unfold fwUpdate
  by_cases hg : i ≠ y ∧ i ≠ z ∧ y ≠ z
  · rw [if_pos hg]
    by_cases hab : a = y ∧ x = z
    · simp only [if_pos hab]
      rw [← hab.2, h y, h i]
      simp
    · simp only [if_neg hab]
      exact h a
  · rw [if_neg hg]
    exact h a

theorem foldl_col_zero {K : Nat} (L : List (Fin K × Fin K × Fin K))
    (x : Fin K) :
    ∀ (P : Mat K), (∀ a, P a x = 0) →
      ∀ a, (L.foldl (fun Q t => fwUpdate Q t.1 t.2.1 t.2.2) P) a x = 0 := by
  induction L with
  | nil => intro P h a; exact h a
  | cons t rest ih =>
      intro P h a
      exact ih _ (fwUpdate_col_zero P t.1 t.2.1 t.2.2 x h) a

theorem floydWarshall_col_zero {K : Nat} (P : Mat K) (x : Fin K)
    (h : ∀ a, P a x = 0) : ∀ a, floydWarshall P a x = 0 :=
  foldl_col_zero (fwTriples K) x P h

/-! ## The Condorcet property (claim C5) -/

theorem weaklyPreferredCount_le {K : Nat} (P : Mat K) (x : Fin K) :
    weaklyPreferredCount P x ≤ K := by
  calc weaklyPreferredCount P x ≤ (Finset.univ : Finset (Fin K)).card :=
        Finset.card_filter_le _ _
    _ = K := by simp

theorem condorcet_path_strengths {K : Nat} (D : Mat K) (x : Fin K)
    (hcond : ∀ y, y ≠ x → D y x < D x y) :
    (∀ a, strongest_path_strengths D a x = 0) ∧
      (∀ y, y ≠ x → 1 ≤ strongest_path_strengths D x y) := by
  have hinit_col : ∀ a, initPathStrengths D a x = 0 := by
    intro a
    unfold initPathStrengths
    by_cases hax : a = x
    · rw [if_neg]
      intro hcon
      exact hcon.1 hax
    · rw [if_neg]
      intro hcon
      have := hcond a hax
      omega
  constructor
  · exact floydWarshall_col_zero _ x hinit_col
  · intro y hyx
    have hinit : initPathStrengths D x y = D x y := by
      unfold initPathStrengths
      rw [if_pos]
      exact ⟨fun h => hyx (h.symm), hcond y hyx⟩
    have hge := floydWarshall_ge_init (initPathStrengths D) x y
    rw [hinit] at hge
    have := hcond y hyx
    unfold strongest_path_strengths
    omega

/-- Claim C5: for a valid ranking matrix (mock rows already filtered out),
a candidate that pairwise-beats every other candidate in the
pairwise-defeats matrix receives tied social rank 0 from
`Schulze.aggregate_with_ties`. -/
theorem schulze_condorcet {K : Nat} (rows : List (Row K)) (x : Fin K)
    (hcheck : check_rankings rows = Except.ok ())
    (hcond : ∀ y, y ≠ x →
      pairwise_defeats rows y x < pairwise_defeats rows x y) :
    aggregate_with_ties rows = Except.ok (schulze_tied rows) ∧
      schulze_tied rows x = 0 := by
  constructor
  · unfold aggregate_with_ties
    rw [hcheck]
  · set D := pairwise_defeats rows with hD
    set P := strongest_path_strengths D with hP
    obtain ⟨hcol, hrow⟩ := condorcet_path_strengths D x hcond
    have hcx : weaklyPreferredCount P x = K := by
      unfold weaklyPreferredCount
      rw [Finset.filter_true_of_mem, Finset.card_univ, Fintype.card_fin]
      intro y _
      rw [hP, hcol y]
      exact Nat.zero_le _
    have hcy : ∀ y, weaklyPreferredCount P y ≤ K :=
      fun y => weaklyPreferredCount_le P y
    unfold schulze_tied rank_candidates rankFromCounts
    rw [← hD, ← hP]
    have hempty : (Finset.univ.image (weaklyPreferredCount P)).filter
        (fun v => weaklyPreferredCount P x < v) = ∅ := by
      rw [Finset.filter_eq_empty_iff]
      intro v hv
      rcases Finset.mem_image.mp hv with ⟨z, _, hzv⟩
      rw [← hzv, hcx]
      exact not_lt.mpr (hcy z)
    rw [hempty]
    simp

/-- Witness for claim C5 at the one-voter matrix [[0, 1]]: candidate 0 is
the Condorcet winner and gets tied rank 0. -/
theorem schulze_condorcet_witness :
    check_rankings [(![0, 1] : Row 2)] = Except.ok () ∧
      (∀ y : Fin 2, y ≠ 0 →
        pairwise_defeats [(![0, 1] : Row 2)] y 0 <
          pairwise_defeats [(![0, 1] : Row 2)] 0 y) ∧
      (aggregate_with_ties [(![0, 1] : Row 2)] =
          Except.ok (schulze_tied [(![0, 1] : Row 2)]) ∧
        schulze_tied [(![0, 1] : Row 2)] 0 = 0) :=
  ⟨by decide, by decide, schulze_condorcet _ 0 (by decide) (by decide)⟩

/-! ## Anonymity and determinism (claims C7, C8) -/

theorem pairwise_defeats_perm {K : Nat} {rows1 rows2 : List (Row K)}
    (hperm : rows1.Perm rows2) :
    pairwise_defeats rows2 = pairwise_defeats rows1 := by
  funext x y
  unfold pairwise_defeats
  exact (hperm.countP_eq _).symm

theorem check_rankings_perm {K : Nat} {rows1 rows2 : List (Row K)}
    (hperm : rows1.Perm rows2) :
    check_rankings rows2 = check_rankings rows1 := by
  have hall : ∀ p : Row K → Bool, rows2.all p = rows1.all p := by
    intro p
    cases h1 : rows1.all p <;> cases h2 : rows2.all p <;> try rfl
    · exfalso
      rw [List.all_eq_true] at h2
      have hcon : rows1.all p = true :=
        List.all_eq_true.mpr (fun r hr => h2 r (hperm.mem_iff.mp hr))
      rw [h1] at hcon
      exact Bool.false_ne_true hcon
    · exfalso
      rw [List.all_eq_true] at h1
      have hcon : rows2.all p = true :=
        List.all_eq_true.mpr (fun r hr => h1 r (hperm.mem_iff.mpr hr))
      rw [h2] at hcon
      exact Bool.false_ne_true hcon
  unfold check_rankings
  rw [hperm.isEmpty_eq, hall]

/-- Claim C7 (anonymity): permuting the rows of a valid ranking matrix
leaves the tied social ranking of `Schulze.aggregate_with_ties`
unchanged. -/
theorem schulze_anonymity {K : Nat} (rows1 rows2 : List (Row K))
    (hperm : rows1.Perm rows2)
    (_hvalid : check_rankings rows1 = Except.ok ()) :
    aggregate_with_ties rows2 = aggregate_with_ties rows1 ∧
      schulze_tied rows2 = schulze_tied rows1 := by
  have htied : schulze_tied rows2 = schulze_tied rows1 := by
    unfold schulze_tied
    rw [pairwise_defeats_perm hperm]
  refine ⟨?_, htied⟩
  unfold aggregate_with_ties
  rw [check_rankings_perm hperm, htied]

/-- Witness for claim C7: swapping the two rows of a concrete valid
matrix leaves the tied ranking unchanged. -/
theorem schulze_anonymity_witness :
    [(![0, 1] : Row 2), ![1, 0]].Perm [(![1, 0] : Row 2), ![0, 1]] ∧
      check_rankings [(![0, 1] : Row 2), ![1, 0]] = Except.ok () ∧
      (aggregate_with_ties [(![1, 0] : Row 2), ![0, 1]] =
          aggregate_with_ties [(![0, 1] : Row 2), ![1, 0]] ∧
        schulze_tied [(![1, 0] : Row 2), ![0, 1]] =
          schulze_tied [(![0, 1] : Row 2), ![1, 0]]) :=
  ⟨List.Perm.swap _ _ _, by decide,
    schulze_anonymity _ _ (List.Perm.swap _ _ _) (by decide)⟩

/-- Claim C8 (determinism): `Schulze.aggregate` is a pure function of the
matrix, the seed and the tie-breaking mode, so two runs with the same
inputs return identical tied and untied rankings. -/
theorem aggregate_deterministic {K : Nat} (method : TieBreakingMethod)
    (rows1 rows2 : List (Row K)) (seed1 seed2 : Nat)
    (hrows : rows1 = rows2) (hseed : seed1 = seed2) :
    aggregate method rows1 seed1 = aggregate method rows2 seed2 := by
  rw [hrows, hseed]

/-- Witness for claim C8 at a concrete tied matrix under TBRC. -/
theorem aggregate_deterministic_witness :
    aggregate TieBreakingMethod.TBRC [(![0, 1] : Row 2), ![1, 0]] 7 =
      aggregate TieBreakingMethod.TBRC [(![0, 1] : Row 2), ![1, 0]] 7 :=
  aggregate_deterministic TieBreakingMethod.TBRC _ _ 7 7 rfl rfl

/-! ## TBRC untying (claim C6) -/

theorem getD_cons_eraseIdx_perm {α : Type} (l : List α) (i : Nat)
    (h : i < l.length) (dflt : α) :
    (l.getD i dflt :: l.eraseIdx i).Perm l := by
  have hget : l.getD i dflt = l[i] := List.getD_eq_getElem l dflt h
  rw [hget, List.eraseIdx_eq_take_drop_succ]
  have hl : l.take i ++ l.drop i = l := List.take_append_drop i l
  have hdrop : l.drop i = l[i] :: l.drop (i + 1) := List.drop_eq_getElem_cons h
  have h2 : l.take i ++ l[i] :: l.drop (i + 1) = l := by rw [← hdrop, hl]
  have h3 := (@List.perm_middle _ l[i] (l.take i) (l.drop (i + 1))).symm
  rw [h2] at h3
  exact h3

theorem shuffleGo_perm {α : Type} :
    ∀ (fuel s : Nat) (l : List α), (shuffleGo fuel s l).1.Perm l := by
  intro fuel
  induction fuel with
  | zero => intro s l; exact List.Perm.refl _
  | succ n ih =>
      intro s l
      match l with
      | [] => exact List.Perm.refl _
      | x :: xs =>
          have hlen : lcg s % (x :: xs).length < (x :: xs).length :=
            Nat.mod_lt _ (by simp)
          have h1 := (ih (lcg s)
            ((x :: xs).eraseIdx (lcg s % (x :: xs).length))).cons
            ((x :: xs).getD (lcg s % (x :: xs).length) x)
          exact List.Perm.trans h1 (getD_cons_eraseIdx_perm _ _ hlen _)

theorem npShuffle_perm {α : Type} (s : Nat) (l : List α) :
    (npShuffle s l).1.Perm l :=
  shuffleGo_perm l.length s l

theorem tbrcLoop_finds_strict {K : Nat} :
    ∀ (L : List (Row K)) (s : Row K),
      (∃ b ∈ L, Function.Injective b) →
      ∃ u, tbrcLoop s L = Sum.inl u ∧ IsStrictPerm u := by
  intro L
  induction L with
  | nil =>
      intro s h
      rcases h with ⟨b, hb, _⟩
      cases hb
  | cons b0 rest ih =>
      intro s h
      by_cases hu : is_untied_ranking (untie_ranking_with_ballot s b0) = true
      · refine ⟨untie_ranking_with_ballot s b0, ?_,
          strictPerm_of_untie_untied s b0 hu⟩
        simp [tbrcLoop, hu]
      · rcases h with ⟨b, hb, hbinj⟩
        have hbrest : b ∈ rest := by
          rcases List.mem_cons.mp hb with h0 | h1
          · exact absurd (untie_is_untied s b0 (h0 ▸ hbinj)) hu
          · exact h1
        rcases ih (untie_ranking_with_ballot s b0) ⟨b, hbrest, hbinj⟩ with
          ⟨u, hloop, hsp⟩
        refine ⟨u, ?_, hsp⟩
        simp [tbrcLoop, hu, hloop]

/-- Claim C6: for a non-empty valid matrix whose tied social ranking has
ties and which contains at least one tie-free row, `Schulze.aggregate`
under TBRC tie-breaking returns an untied ranking that is a strict
permutation of 0..K−1. -/
theorem aggregate_tbrc_unties {K : Nat} (rows frows : List (Row K))
    (seed : Nat)
    (hfil : filter_out_mocks rows = Except.ok frows)
    (hne : frows ≠ [])
    (hcheck : check_rankings frows = Except.ok ())
    (hties : is_untied_ranking (schulze_tied frows) = false)
    (hstrict : ∃ b ∈ frows, Function.Injective b) :
    ∃ u, aggregate TieBreakingMethod.TBRC rows seed =
        Except.ok (schulze_tied frows, u) ∧ IsStrictPerm u := by
  have hperm := npShuffle_perm seed frows
  have hstrict2 : ∃ b ∈ (npShuffle seed frows).1, Function.Injective b := by
    rcases hstrict with ⟨b, hb, hbi⟩
    exact ⟨b, hperm.mem_iff.mpr hb, hbi⟩
  rcases tbrcLoop_finds_strict _ (schulze_tied frows) hstrict2 with
    ⟨u, hloop, hsp⟩
  have hagg : aggregate_with_ties frows = Except.ok (schulze_tied frows) := by
    unfold aggregate_with_ties
    rw [hcheck]
  have hempty : frows.isEmpty = false := by
    cases frows with
    | nil => exact absurd rfl hne
    | cons a t => rfl
  have hK : (decide (K = 0)) = false := by
    rw [decide_eq_false_iff_not]
    intro hK0
    subst hK0
    unfold check_rankings at hcheck
    rw [if_pos rfl, if_neg] at hcheck
    · cases hcheck
    · rw [List.isEmpty_iff]
      exact hne
  refine ⟨u, ?_, hsp⟩
  simp only [aggregate, hfil, hempty, hK, hagg, hties, hloop, Bool.false_or,
    Bool.or_self, if_false]
  rfl

/-- Witness for claim C6 at the two-voter matrix [[0,1],[1,0]], whose
tied social ranking is the all-tie [0,0] and whose rows are both
strict. -/
theorem aggregate_tbrc_unties_witness :
    filter_out_mocks [(![0, 1] : Row 2), ![1, 0]] =
        Except.ok [(![0, 1] : Row 2), ![1, 0]] ∧
      is_untied_ranking (schulze_tied [(![0, 1] : Row 2), ![1, 0]]) = false ∧
      (∃ u, aggregate TieBreakingMethod.TBRC
            [(![0, 1] : Row 2), ![1, 0]] 7 =
          Except.ok (schulze_tied [(![0, 1] : Row 2), ![1, 0]], u) ∧
        IsStrictPerm u) :=
  ⟨by decide, by decide,
    aggregate_tbrc_unties _ _ 7 (by decide) (by decide) (by decide)
      (by decide) ⟨![0, 1], by decide, by decide⟩⟩

/-! ## Consistency of tie-breaking (claim C9) -/

/-- Claim C9: `untie_ranking_with_ballot` preserves every strict
comparison of the tied ranking, and its output values are the consecutive
integers starting at 0. -/
theorem untie_ranking_consistent {K : Nat} (t b : Row K) :
    (∀ x y, t x < t y →
      untie_ranking_with_ballot t b x < untie_ranking_with_ballot t b y) ∧
      ConsecutiveFromZero (untie_ranking_with_ballot t b) :=
  ⟨fun _ _ h => untie_strictMono t b h, untie_consecutive t b⟩

/-- Witness for claim C9 at a concrete tied ranking and ballot. -/
theorem untie_ranking_consistent_witness :
    ((![0, 0, 1] : Row 3) 0 < (![0, 0, 1] : Row 3) 2 ∧
      untie_ranking_with_ballot (![0, 0, 1] : Row 3) ![1, 0, 0] 0 <
        untie_ranking_with_ballot (![0, 0, 1] : Row 3) ![1, 0, 0] 2) ∧
      ConsecutiveFromZero
        (untie_ranking_with_ballot (![0, 0, 1] : Row 3) ![1, 0, 0]) :=
  ⟨⟨by decide, (untie_ranking_consistent ![0, 0, 1] ![1, 0, 0]).1 0 2
      (by decide)⟩,
    (untie_ranking_consistent ![0, 0, 1] ![1, 0, 0]).2⟩

/-! ## The critique transition (claim C1)

The spec claims the condition for running another mediation round is
`current_round < num_critique_rounds`; the source tests
`current_critique_round < num_critique_rounds - 1`. -/

/-- Counterexample to claim C1 as stated: here
`current_critique_round = 0 < 1 = num_critique_rounds` and all critiques
are in, so the claim predicts a round increment, a Mediation Engine
invocation and stage RANKING; the code instead concludes the
deliberation, leaving the round at 0 and invoking nothing. -/
theorem critique_transition_counterexample :
    c1_delib.current_critique_round < c1_delib.num_critique_rounds ∧
      c1_delib.num_citizens ≤ (c1_delib.critiques.filter (fun c =>
        c.2.1 == c1_delib.current_critique_round)).length ∧
      check_critique_transition
          (fun _ _ _ => Except.ok ["s1", "s2"]) 100 c1_delib =
        Except.ok (({ c1_delib with
          stage := Stage.CONCLUDED,
          concluded_at := some 100 } : DelibState), true) ∧
      Stage.CONCLUDED ≠ Stage.RANKING := by
  refine ⟨by decide, by decide, by decide, by decide⟩

/-- Claim C1 as amended: when the critique count for the current round
reaches `num_citizens`, the transition runs another mediation round and
returns to RANKING iff `current_critique_round < num_critique_rounds − 1`
(not `< num_critique_rounds`), and otherwise concludes, setting the
concluded timestamp; with `num_critique_rounds = 1` the deliberation
concludes directly after the round-0 critiques, with no refinement
round. -/
theorem critique_transition_behavior
    (runCritique : List String → List String → Nat →
      Except String (List String))
    (now : Nat) (d : DelibState) (sorted : List String)
    (hcnt : d.num_citizens ≤ (d.critiques.filter (fun c =>
      c.2.1 == d.current_critique_round)).length)
    (hrun : runCritique (d.opinions.map (fun o => o.2))
      ((d.critiques.filter (fun c =>
        c.2.1 == d.current_critique_round)).map (fun c => c.2.2))
      (d.current_critique_round + 1) = Except.ok sorted) :
    (d.current_critique_round < d.num_critique_rounds - 1 →
      check_critique_transition runCritique now d =
        Except.ok (({ d with
          current_critique_round := d.current_critique_round + 1,
          statements := d.statements ++
            persist_statements (d.current_critique_round + 1) sorted,
          stage := Stage.RANKING } : DelibState), true)) ∧
    (¬ d.current_critique_round < d.num_critique_rounds - 1 →
      check_critique_transition runCritique now d =
        Except.ok (({ d with
          stage := Stage.CONCLUDED,
          concluded_at := some now } : DelibState), true)) := by
  constructor
  · intro hlt
    unfold check_critique_transition
    rw [if_neg (Nat.not_lt.mpr hcnt), if_pos hlt]
    simp only [hrun]
  · intro hge
    unfold check_critique_transition
    rw [if_neg (Nat.not_lt.mpr hcnt), if_neg hge]

/-- Witness for the amended claim C1, in a deliberation with
`num_critique_rounds = 3` at round 0: the transition increments the round,
persists the engine output and returns to RANKING. -/
theorem critique_transition_behavior_witness :
    check_critique_transition (fun _ _ _ => Except.ok ["a", "b"]) 100
        c1_delib3 =
      Except.ok (({ c1_delib3 with
        current_critique_round := 1,
        statements := c1_delib3.statements ++ persist_statements 1 ["a", "b"],
        stage := Stage.RANKING } : DelibState), true) :=
  (critique_transition_behavior (fun _ _ _ => Except.ok ["a", "b"]) 100
    c1_delib3 ["a", "b"] (by decide) (by decide)).1 (by decide)

/-! ## Ranking submission performs no validation (claim C2) -/

/-- Counterexample to claim C2 as stated: the payload [(1,5),(1,5)] is
not a strict permutation 1..2 over the candidate ids [1, 2], yet
`submit_ranking` accepts it and stores it (there is no INVALID_RANKING
check anywhere in the endpoint). -/
theorem submit_ranking_counterexample :
    ¬ SpecStrictPermutationPayload [(1, 5), (1, 5)] [1, 2] ∧
      submit_ranking (fun _ => some c2_delib) 0 7 [(1, 5), (1, 5)] =
        Except.ok { c2_delib with
          rankings := [(7, 0, [(1, 5), (1, 5)])] } := by
  constructor
  · intro hcon
    exact absurd hcon.2 (by decide)
  · decide

/-- Claim C2 as amended: `submit_ranking` validates nothing about the
payload; during RANKING, any `statement_rankings` list whatsoever is
accepted and stored for a non-duplicate submission, and the only
rejections are NOT_FOUND, STAGE_MISMATCH and DUPLICATE_SUBMISSION. -/
theorem submit_ranking_accepts_any
    (store : Nat → Option DelibState) (did agent : Nat)
    (payload : List (Nat × Int)) (d : DelibState)
    (hstore : store did = some d)
    (hstage : d.stage = Stage.RANKING)
    (hdup : d.rankings.any (fun r =>
      r.1 == agent && r.2.1 == d.current_critique_round) = false) :
    submit_ranking store did agent payload =
      Except.ok { d with rankings :=
        d.rankings ++ [(agent, d.current_critique_round, payload)] } := by
  unfold submit_ranking
  rw [hstore]
  simp [hstage, hdup]

/-- Witness for the amended claim C2: a duplicate-id, out-of-range
payload is accepted. -/
theorem submit_ranking_accepts_any_witness :
    submit_ranking (fun _ => some c2_delib) 0 7 [(99, -3), (99, -3)] =
      Except.ok { c2_delib with rankings :=
        [(7, 0, [(99, -3), (99, -3)])] } :=
  submit_ranking_accepts_any (fun _ => some c2_delib) 0 7
    [(99, -3), (99, -3)] c2_delib rfl rfl rfl

/-! ## The participant cap does not gate opinion submission (claim C10) -/

/-- Claim C10: `submit_opinion` does not enforce `max_citizens`: an
opinion from a fresh agent is accepted and stored even when the opinion
count already reached the cap, and the cap is only consulted by the
OPINION→RANKING transition check, which does not fire below it. -/
theorem submit_opinion_ignores_cap
    (store : Nat → Option DelibState) (did agent : Nat) (text : String)
    (d : DelibState) (mx : Nat)
    (hstore : store did = some d)
    (hstage : d.stage = Stage.OPINION)
    (_hmax : d.max_citizens = some mx)
    (_hfull : mx ≤ d.opinions.length)
    (hdup : d.opinions.any (fun o => o.1 == agent) = false) :
    submit_opinion store did agent text =
      Except.ok { d with opinions := d.opinions ++ [(agent, text)] } ∧
    (∀ (d2 : DelibState) (mx2 : Nat), d2.max_citizens = some mx2 →
      d2.opinions.length < mx2 →
      ∀ (f : List String → Except String (List String)) (now : Nat),
        check_opinion_to_ranking_transition f now d2 =
          Except.ok (d2, false)) := by
  constructor
  · unfold submit_opinion
    rw [hstore]
    simp [hstage, hdup]
  · intro d2 mx2 hmax2 hlt f now
    unfold check_opinion_to_ranking_transition
    by_cases h2 : d2.opinions.length < 2
    · rw [if_pos h2]
    · rw [if_neg h2, if_pos]
      rw [hmax2]
      simp [hlt]

/-- Witness for claim C10: a third opinion is accepted with
`max_citizens = 2` already reached, and a deliberation one opinion short
of its cap does not transition. -/
theorem submit_opinion_ignores_cap_witness :
    submit_opinion (fun _ => some c10_delib) 0 9 "late opinion" =
      Except.ok { c10_delib with
        opinions := c10_delib.opinions ++ [(9, "late opinion")] } ∧
    (∀ (d2 : DelibState) (mx2 : Nat), d2.max_citizens = some mx2 →
      d2.opinions.length < mx2 →
      ∀ (f : List String → Except String (List String)) (now : Nat),
        check_opinion_to_ranking_transition f now d2 =
          Except.ok (d2, false)) :=
  submit_opinion_ignores_cap _ 0 9 "late opinion" _ 2 rfl rfl rfl
    (by decide) (by decide)

/-! ## A nil ranking aborts the round (claim C4) -/

theorem genLoop_opinions (cfg : MachineConfig) :
    ∀ (n : Nat) (m : MachineState),
      ((genLoop cfg n m).2.2).opinions = m.opinions := by
  intro n
  induction n with
  | zero => intro m; rfl
  | succ k ih =>
      intro m
      simp only [genLoop]
      rw [ih]
      rfl

theorem rankLoop_error_of_nil (cfg : MachineConfig)
    (statements : List String) (ops : List String) (i : Nat)
    (hnil : ∀ stmts prevW crit sd,
      (cfg.predict_ranking cfg.question (ops.getD i "") stmts prevW crit
        sd).1 = none) :
    ∀ (idxs : List Nat) (m : MachineState), m.opinions = ops → i ∈ idxs →
      ∃ e, rankLoop cfg statements idxs m = Except.error e := by
  intro idxs
  induction idxs with
  | nil =>
      intro m _ hmem
      cases hmem
  | cons j rest ih =>
      intro m hops hmem
      set sh := npShuffle m.rng (List.range cfg.num_candidates) with hsh
      set sd := drawSeed { m with rng := sh.2 } with hsd
      set pr := cfg.predict_ranking cfg.question (m.opinions.getD j "")
        (sh.1.map (fun jj => statements.getD jj ""))
        (if m.round > 0 then m.previous_winners.getLast? else none)
        (if m.round > 0 then
          m.critiques.getLast?.map (fun cs => cs.getD j "") else none)
        sd.1 with hprd
      have hstep : rankLoop cfg statements (j :: rest) m =
          match pr.1 with
          | none => Except.error "ranking is none"
          | some ranking =>
              match rankLoop cfg statements rest sd.2 with
              | Except.error e => Except.error e
              | Except.ok (rows, exps, m') =>
                  Except.ok ((fun k =>
                    ranking.getD (sh.1.indexOf k.val) RANKING_MOCK) :: rows,
                    pr.2 :: exps, m') := rfl
      rw [hstep]
      cases hpr : pr.1 with
      | none => exact ⟨_, rfl⟩
      | some ranking =>
          have hji : j ≠ i := by
            intro hcon
            rw [hprd, hcon, hops] at hpr
            rw [hnil _ _ _ _] at hpr
            cases hpr
          have hrest : i ∈ rest := by
            rcases List.mem_cons.mp hmem with h0 | h1
            · exact absurd h0.symm hji
            · exact h1
          have hops2 : (sd.2).opinions = ops := by
            rw [hsd, ← hops]
            rfl
          obtain ⟨e, he⟩ := ih sd.2 hops2 hrest
          exact ⟨e, by rw [he]⟩

theorem mediate_error_of_nil (cfg : MachineConfig) (seed : Nat)
    (ops : List String) (i : Nat) (hi : i < cfg.num_citizens)
    (hlen : ops.length = cfg.num_citizens)
    (hnil : ∀ stmts prevW crit sd,
      (cfg.predict_ranking cfg.question (ops.getD i "") stmts prevW crit
        sd).1 = none) :
    ∃ e, mediate cfg (newMachine seed) ops = Except.error e := by
  have hops : ((generate_statements cfg
      { newMachine seed with opinions := ops }).2.2).opinions = ops :=
    genLoop_opinions cfg cfg.num_candidates _
  obtain ⟨e, he⟩ := rankLoop_error_of_nil cfg
    (generate_statements cfg { newMachine seed with opinions := ops }).1
    ops i hnil (List.range cfg.num_citizens)
    ((generate_statements cfg { newMachine seed with opinions := ops }).2.2)
    hops (List.mem_range.mpr hi)
  refine ⟨e, ?_⟩
  have hstep : mediate cfg (newMachine seed) ops =
      mediate_after_rankings cfg
        (generate_statements cfg { newMachine seed with opinions := ops }).1
        (get_rankings cfg
          (generate_statements cfg
            { newMachine seed with opinions := ops }).1
          (generate_statements cfg
            { newMachine seed with opinions := ops }).2.2) := by
    unfold mediate
    rw [if_neg (not_not.mpr hlen)]
    rfl
  rw [hstep]
  have he2 : get_rankings cfg
      (generate_statements cfg { newMachine seed with opinions := ops }).1
      (generate_statements cfg
        { newMachine seed with opinions := ops }).2.2 = Except.error e := he
  rw [he2]
  rfl

/-- Claim C4: if one participant's ranking prediction is nil (after the
predictor's internal retries), the mediation round raises, the transition
propagates the error, and the deliberation row — stage and statements —
is left unchanged by the background task. -/
theorem nil_ranking_aborts_round
    (base : MachineConfig) (seed now : Nat) (d : DelibState) (i : Nat)
    (hi : i < d.opinions.length)
    (hnil : ∀ stmts prevW crit sd,
      (base.predict_ranking base.question
        ((d.opinions.map (fun o => o.2)).getD i "") stmts prevW crit
        sd).1 = none)
    (h2 : 2 ≤ d.opinions.length)
    (hmax : ∀ mx, d.max_citizens = some mx → mx ≤ d.opinions.length) :
    (∃ e, check_opinion_to_ranking_transition
      (run_opinion_round base seed) now d = Except.error e) ∧
    apply_transition
      (check_opinion_to_ranking_transition (run_opinion_round base seed) now)
      d = d := by
  have hlen : (d.opinions.map (fun o => o.2)).length = d.opinions.length :=
    List.length_map _ _
  obtain ⟨e, he⟩ := mediate_error_of_nil
    { base with num_citizens := (d.opinions.map (fun o => o.2)).length }
    seed (d.opinions.map (fun o => o.2)) i (by rw [hlen]; exact hi) rfl hnil
  have hrun : run_opinion_round base seed (d.opinions.map (fun o => o.2)) =
      Except.error e := by
    have hstep2 : run_opinion_round base seed
        (d.opinions.map (fun o => o.2)) =
        match mediate
          { base with
            num_citizens := (d.opinions.map (fun o => o.2)).length }
          (newMachine seed) (d.opinions.map (fun o => o.2)) with
        | Except.error e2 => Except.error e2
        | Except.ok (_w, sorted, _m) => Except.ok sorted := rfl
    rw [hstep2, he]
  have hcheck : check_opinion_to_ranking_transition
      (run_opinion_round base seed) now d = Except.error e := by
    unfold check_opinion_to_ranking_transition
    rw [if_neg (Nat.not_lt.mpr h2), if_neg, hrun]
    cases hmx : d.max_citizens with
    | none => simp
    | some mx =>
        simp only [decide_eq_true_eq]
        exact Nat.not_lt.mpr (hmax mx hmx)
  refine ⟨⟨e, hcheck⟩, ?_⟩
  unfold apply_transition
  rw [hcheck]

/-- Witness for claim C4: a two-opinion deliberation whose second
participant's predictor always returns nil; the transition errors and the
state is untouched. -/
theorem nil_ranking_aborts_round_witness :
    (∃ e, check_opinion_to_ranking_transition
      (run_opinion_round
        { question := "q"
          gen_statement := fun _ _ _ _ _ => ("s", "e")
          predict_ranking := fun _ op _ _ _ _ =>
            (if op == "o2" then none else some [0, 1], "e")
          num_candidates := 2
          num_citizens := 2 } 7) 50
      { c2_delib with stage := Stage.OPINION, statements := [] } =
        Except.error e) ∧
    apply_transition
      (check_opinion_to_ranking_transition
        (run_opinion_round
          { question := "q"
            gen_statement := fun _ _ _ _ _ => ("s", "e")
            predict_ranking := fun _ op _ _ _ _ =>
              (if op == "o2" then none else some [0, 1], "e")
            num_candidates := 2
            num_citizens := 2 } 7) 50)
      { c2_delib with stage := Stage.OPINION, statements := [] } =
      { c2_delib with stage := Stage.OPINION, statements := [] } :=
  nil_ranking_aborts_round _ 7 50 _ 1 (by decide) (fun _ _ _ _ => rfl)
    (by decide) (fun mx hmx => by cases hmx)

/-! ## The critique round ignores the persisted winner (claim C3)

`HabermasService.run_critique_round` creates a fresh machine, re-runs a
full opinion-round mediation, and then mediates on the critique texts;
the `previous_winner` handed to the Statement Generator is therefore the
winner of the fresh in-memory re-run, not the statement persisted with
social rank 1 for the previous round.  The generator below writes the
`previous_winner` it receives into the statement text, making the value
observable in the persisted round-1 statements. -/

/-- Claim C3 fails on the code: the persisted round-0 winner is "W0",
yet the round-1 statements generated by the CRITIQUE→RANKING transition
read "seen:base" — the Statement Generator was invoked with
`previous_winner = "base"`, the winner of the fresh opinion-round re-run,
not with the persisted winner "W0" (which would have produced
"seen:W0"). -/
theorem critique_round_previous_winner_bug :
    get_winning_statement c3_delib = some ⟨0, "W0", 1⟩ ∧
      round_statement_texts
        (apply_transition (check_critique_transition c3_run 100) c3_delib)
        1 = ["seen:base", "seen:base"] ∧
      (apply_transition (check_critique_transition c3_run 100)
        c3_delib).stage = Stage.RANKING ∧
      ("seen:base" : String) ≠ "seen:" ++ "W0" := by
  refine ⟨by decide, by decide, by decide, by decide⟩

end Habermolt
